import Mathlib

/-!
Verification of a dotenv-style configuration binder
(`pyatl/typing/dotenvtypes.py`).

The source binds flat `KEY=VALUE` text into a typed configuration record:
`bind_to` extracts field descriptors from the record type
(`load_type_hints_and_defaults`), parses the raw text line by line
(`parse_config`, with a type-directed casting engine `ConfigBinder`), and
assigns the resolved values onto a fresh record (`bind_to_config`).

Embedding conventions:
* Python strings are Lean `String`s; the handful of `str` operations the
  source uses (`split`, `split` with maxsplit, `join`, `lower`) are
  re-implemented structurally on `List Char` so that the kernel can
  evaluate them (`pySplit`, `pySplitMax1`, `pyJoin`, `pyLower`).  Only the
  ASCII fragment of `str.lower` is modelled; the program's key matching
  is over identifier-like keys, which this covers.
* Python dicts are insertion-ordered association lists; `dct[k] = v`
  replaces the value at an existing key in place (keeping the stored key
  object) and appends a fresh key at the end (`sdictInsert`,
  `pyDictInsert`).  Python sets are modelled as insertion-ordered
  duplicate-free lists (`pySetInsert`); no claim observes set ordering.
* Exceptions are `Except`.  The parsing loop's error also carries the
  in-progress mapping at raise time (a real program state of the Python
  dict when the exception propagates), which lets the documented
  "fallback to the default, then still raise" behaviour be stated.
* Python `int(s)` / `float(s)` are modelled on their documented literal
  grammars (`pyIntParse`, `pyFloatValid`): optional surrounding ASCII
  whitespace, optional sign, digit groups with single underscores between
  digits; `float` additionally accepts a fractional part, an exponent
  part and the `inf`/`infinity`/`nan` forms, case-insensitively.
  Non-ASCII digits are not modelled.  Float VALUES are kept opaque: a
  successfully cast float is represented by its literal text, since no
  claim observes float arithmetic or float equality.
-/

namespace Dotenv

/-- A Python runtime value as produced by the casting engine: scalars
(`str`, `int`, `float`), lists, sets and dicts.  Sets are
insertion-ordered duplicate-free lists, dicts insertion-ordered
association lists, mirroring CPython semantics. -/
inductive Value where
  | vstr (s : String)
  | vint (n : Int)
  | vfloat (lit : String)
  | vlist (xs : List Value)
  | vset (xs : List Value)
  | vdict (ps : List (Value × Value))

mutual
/-- Structural equality of values (Python `==` restricted to the values
this program can actually build: all elements of one container come from
one caster, so cross-type numeric equality never arises). -/
def Value.beq : Value → Value → Bool
  | .vstr a, .vstr b => a == b
  | .vint a, .vint b => a == b
  | .vfloat a, .vfloat b => a == b
  | .vlist a, .vlist b => Value.beqList a b
  | .vset a, .vset b => Value.beqList a b
  | .vdict a, .vdict b => Value.beqPairs a b
  | _, _ => false

/-- Pointwise equality of value lists. -/
def Value.beqList : List Value → List Value → Bool
  | [], [] => true
  | v :: r, v' :: r' => Value.beq v v' && Value.beqList r r'
  | _, _ => false

/-- Pointwise equality of key/value pair lists. -/
def Value.beqPairs : List (Value × Value) → List (Value × Value) → Bool
  | [], [] => true
  | p :: r, p' :: r' => Value.beq p.1 p'.1 && Value.beq p.2 p'.2 && Value.beqPairs r r'
  | _, _ => false
end

/-- A type annotation as the source's `cast` inspects it: the scalar
types `str`, `int`, `float`, the generic aliases `t.List`, `t.Set`,
`t.Dict` (whose `__args__` may be absent, mirrored by `Option`), and any
other type object (`other`), which has no entry in `ConfigBinder.kinds`
and therefore no registered caster. -/
inductive Ty where
  | str
  | int
  | float
  | list (elem : Option Ty)
  | set (elem : Option Ty)
  | dict (args : Option (Ty × Ty))
  | other (tyName : String)

/-- Root kinds with a registered caster in `ConfigBinder.kinds`. -/
def Ty.rootSupported : Ty → Bool
  | .other _ => false
  | _ => true

/-- The exceptions the source can raise:
* `malformedLine`: the `ValueError` from unpacking `split('=')` into
  `key, value` (the top-level lines use `split('=', 1)`, `as_dict`'s
  pairs use `split('=')`);
* `conversionError`: the `ValueError` from `int(...)` / `float(...)`;
* `typeUnsupported`: the `KeyError` from looking up an unregistered type
  in `ConfigBinder.kinds`;
* `parseError`: the `Exception(f"Could not parse \x7bname\x7d from
  \x7bvalue\x7d")` raised by `parse_config`, carrying the offending key
  as written on the line and the raw value. -/
inductive Err where
  | malformedLine (line : String)
  | conversionError (raw : String)
  | typeUnsupported (tyName : String)
  | parseError (key raw : String)

/-- Python `str.split(sep)` for a one-character separator, on char
lists: splitting the empty text yields `[[]]`, and every separator
occurrence starts a new (possibly empty) segment. -/
def splitChar (c : Char) : List Char → List (List Char)
  | [] => [[]]
  | x :: xs =>
    match splitChar c xs with
    | [] => [[]]
    | h :: t => if x = c then [] :: h :: t else (x :: h) :: t

/-- Python `s.split(sep)` for a one-character separator. -/
def pySplit (c : Char) (s : String) : List String :=
  (splitChar c s.toList).map (fun cs => ⟨cs⟩)

/-- Python `s.split(sep, 1)` unpacked into exactly two parts, on char
lists: `none` when the separator does not occur (the unpacking
`name, value = line.split('=', 1)` then raises `ValueError`). -/
def splitCharOnce (c : Char) : List Char → Option (List Char × List Char)
  | [] => none
  | x :: xs =>
    if x = c then some ([], xs)
    else (splitCharOnce c xs).map (fun p => (x :: p.1, p.2))

/-- Python `s.split(sep, 1)` unpacked into two strings. -/
def pySplitMax1 (c : Char) (s : String) : Option (String × String) :=
  (splitCharOnce c s.toList).map (fun p => (⟨p.1⟩, ⟨p.2⟩))

/-- Python `sep.join(strings)`. -/
def pyJoin (sep : String) : List String → String
  | [] => ""
  | [x] => x
  | x :: xs => x ++ sep ++ pyJoin sep xs

/-- Python `str.lower` (ASCII fragment). -/
def pyLower (s : String) : String :=
  ⟨s.toList.map Char.toLower⟩

/-- The six characters Python's `int`/`float` strip from both ends. -/
def isPySpace (c : Char) : Bool :=
  c == ' ' || c == '\t' || c == '\n' || c == '\r' || c == '\x0b' || c == '\x0c'

/-- Strip leading and trailing whitespace. -/
def pyStripChars (cs : List Char) : List Char :=
  ((cs.dropWhile isPySpace).reverse.dropWhile isPySpace).reverse

/-- A nonempty ASCII digit group with single underscores allowed only
between digits, as in Python numeric literals.  The flag records whether
the previous character was a digit; start it at `false`. -/
def pyDigitsOk : Bool → List Char → Bool
  | prevDigit, [] => prevDigit
  | prevDigit, c :: rest =>
    if c.isDigit then pyDigitsOk true rest
    else if c == '_' then prevDigit && pyDigitsOk false rest
    else false

/-- Numeric value of a digit group, skipping underscores. -/
def digitsVal (cs : List Char) : Nat :=
  cs.foldl (fun n c => if c == '_' then n else n * 10 + (c.toNat - 48)) 0

/-- Python `int(s)`: strip whitespace, optional sign, digit group. -/
def pyIntParse (s : String) : Option Int :=
  match pyStripChars s.toList with
  | '+' :: ds => if pyDigitsOk false ds then some (Int.ofNat (digitsVal ds)) else none
  | '-' :: ds => if pyDigitsOk false ds then some (-(Int.ofNat (digitsVal ds))) else none
  | ds => if pyDigitsOk false ds then some (Int.ofNat (digitsVal ds)) else none

/-- Exponent part of a Python float literal: optional sign, digits. -/
def pyExpOk (cs : List Char) : Bool :=
  match cs with
  | '+' :: ds => pyDigitsOk false ds
  | '-' :: ds => pyDigitsOk false ds
  | ds => pyDigitsOk false ds

/-- Mantissa of a Python float literal: `digits`, `digits.`,
`digits.digits` or `.digits`. -/
def pyMantissaOk (cs : List Char) : Bool :=
  match splitChar '.' cs with
  | [a] => pyDigitsOk false a
  | [a, b] =>
    (pyDigitsOk false a && (b.isEmpty || pyDigitsOk false b))
      || (a.isEmpty && pyDigitsOk false b)
  | _ => false

/-- Python `float(s)` acceptance: strip whitespace, optional sign, then
`inf`/`infinity`/`nan` (case-insensitive) or a mantissa with optional
exponent. -/
def pyFloatValid (s : String) : Bool :=
  let body :=
    match pyStripChars s.toList with
    | '+' :: r => r
    | '-' :: r => r
    | r => r
  let low := body.map Char.toLower
  if low == ['i', 'n', 'f'] || low == ['i', 'n', 'f', 'i', 'n', 'i', 't', 'y']
      || low == ['n', 'a', 'n'] then
    true
  else
    match splitChar 'e' low with
    | [m] => pyMantissaOk m
    | [m, e] => pyMantissaOk m && pyExpOk e
    | _ => false

/-- Python `s.add(v)` on a set modelled as an insertion-ordered
duplicate-free list: an already-present element is kept (the original
object survives), a new element is appended. -/
def pySetInsert : List Value → Value → List Value
  | [], v => [v]
  | x :: rest, v => if Value.beq x v then x :: rest else x :: pySetInsert rest v

/-- Python `set(iterable)`: insert the elements left to right. -/
def pySetOfList (vs : List Value) : List Value :=
  vs.foldl pySetInsert []

/-- Python `dct[k] = v` on a value-keyed dict: replace the value at an
existing key in place (the originally stored key object survives), or
append a new entry. -/
def pyDictInsert : List (Value × Value) → Value → Value → List (Value × Value)
  | [], k, v => [(k, v)]
  | p :: rest, k, v =>
    if Value.beq p.1 k then (p.1, v) :: rest else p :: pyDictInsert rest k v

/-- Python `dct[k] = v` on a string-keyed dict. -/
def sdictInsert {α : Type} : List (String × α) → String → α → List (String × α)
  | [], k, v => [(k, v)]
  | p :: rest, k, v =>
    if p.1 == k then (p.1, v) :: rest else p :: sdictInsert rest k v

/-- Python `dct.get(k, None)` on a string-keyed dict. -/
def sdictGet {α : Type} : List (String × α) → String → Option α
  | [], _ => none
  | p :: rest, k => if p.1 == k then some p.2 else sdictGet rest k

/-- Whether a string-keyed dict has an entry for `k`. -/
def keyMem {α : Type} (m : List (String × α)) (k : String) : Bool :=
  (sdictGet m k).isSome

/-- The body of `as_dict`'s loop, one iteration for one `pair`:
`key, value = pair.split('=')` (anything but exactly two parts raises
`ValueError`), cast the key, cast the value, then `dct[key] = value`.
The key and value casters are passed in as closures. -/
def dictStep (kc vc : String → Except Err Value)
    (dct : List (Value × Value)) (pair : String) : Except Err (List (Value × Value)) :=
  match pySplit '=' pair with
  | [key, value] => do
      let kv ← kc key
      let vv ← vc value
      pure (pyDictInsert dct kv vv)
  | _ => .error (.malformedLine pair)

mutual
/-- `ConfigBinder.cast(in_, as_)`: the type-directed casting engine.
The source reads `as_.__args__`; when present it dispatches on
`as_.__origin__` passing the argument types along, otherwise it
dispatches on `as_` itself, so a bare container alias runs the caster
with its default `str` parameters (`ConfigBinder.castElem` /
`castKeyTy` / `castValTy` resolve that defaulting).  The descriptor is
taken as the first (recursion-driving) argument here; the source order
is `cast(in_, as_)`.
* `str` is `as_str` (identity), `int` is `as_int` (`int(in_)`),
  `float` is `as_float` (`float(in_)`);
* `list` is `as_list`: split on `,` and cast every segment;
* `set` is `as_set`: split on `,`, cast every segment, collect into a
  set;
* `dict` is `as_dict`: split on `,`, split each pair on `=` into
  exactly key and value, cast both, assign into the dict;
* any other type has no entry in `kinds`: the lookup raises
  (`typeUnsupported`). -/
def ConfigBinder.cast : Ty → String → Except Err Value
  | .str => fun in_ => .ok (.vstr in_)
  | .int => fun in_ =>
      match pyIntParse in_ with
      | some n => .ok (.vint n)
      | none => .error (.conversionError in_)
  | .float => fun in_ =>
      if pyFloatValid in_ then .ok (.vfloat in_) else .error (.conversionError in_)
  | .list sub =>
      let ec := ConfigBinder.castElem sub
      fun in_ => ((pySplit ',' in_).mapM ec).map .vlist
  | .set sub =>
      let ec := ConfigBinder.castElem sub
      fun in_ => ((pySplit ',' in_).mapM ec).map (fun vs => .vset (pySetOfList vs))
  | .dict args =>
      let kc := ConfigBinder.castKeyTy args
      let vc := ConfigBinder.castValTy args
      fun in_ => ((pySplit ',' in_).foldlM (dictStep kc vc) []).map .vdict
  | .other n => fun _ => .error (.typeUnsupported n)

/-- Element caster of `as_list` / `as_set`: the declared element type
when `__args__` is present, else the parameter default `sub = str`
(identity cast, as `as_str`). -/
def ConfigBinder.castElem : Option Ty → String → Except Err Value
  | none => fun in_ => .ok (.vstr in_)
  | some t => ConfigBinder.cast t

/-- Key caster of `as_dict`: the declared key type when `__args__` is
present, else the parameter default `kt = str`. -/
def ConfigBinder.castKeyTy : Option (Ty × Ty) → String → Except Err Value
  | none => fun in_ => .ok (.vstr in_)
  | some (kt, _) => ConfigBinder.cast kt

/-- Value caster of `as_dict`: the declared value type when `__args__`
is present, else the parameter default `vt = str`. -/
def ConfigBinder.castValTy : Option (Ty × Ty) → String → Except Err Value
  | none => fun in_ => .ok (.vstr in_)
  | some (_, vt) => ConfigBinder.cast vt
end

/-- One declared field of a target record type: its name as annotated,
its type hint, and its class-level default (`getattr(c, name, None)`,
so a missing default and an explicit `None` default coincide). -/
structure FieldDecl where
  name : String
  hint : Ty
  default : Option Value

/-- `ConfigSettings`: lowercased field name to (canonical name, type
hint, optional default). -/
abbrev ConfigSettings := List (String × (String × Ty × Option Value))

/-- `LoadedConfig`: canonical field name to resolved value (`none` is
Python `None`, the seed for a field with no default). -/
abbrev LoadedConfig := List (String × Option Value)

/-- `load_type_hints_and_defaults(c)`: walk the record type's
annotations in declaration order and store
`loaded[name.lower()] = (name, hint, getattr(c, name, None))`. -/
def load_type_hints_and_defaults (c : List FieldDecl) : ConfigSettings :=
  c.foldl (fun loaded f => sdictInsert loaded (pyLower f.name) (f.name, f.hint, f.default)) []

/-- The seeding loop of `parse_config`: `config[name] = default` for
every `(name, _, default)` in `settings.values()`. -/
def seedConfig (settings : ConfigSettings) : LoadedConfig :=
  settings.foldl (fun config s => sdictInsert config s.2.1 s.2.2.2) []

/-- The line loop of `parse_config` over the already-split lines.  For
each line: `name, value = line.split('=', 1)` (no `=` raises
`ValueError`, modelled `malformedLine`); look the lowercased key up in
`settings` (`None` means skip the line); cast the value, storing the
result under the canonical field name on success; on any cast
exception, write the field's default into the mapping when one is
declared (`actual[2] is not None`) and raise the wrapping
`parseError`.  The error carries the mapping as it stood when the
exception propagated. -/
def parseLines (settings : ConfigSettings) :
    List String → LoadedConfig → Except (Err × LoadedConfig) LoadedConfig
  | [], config => .ok config
  | line :: rest, config =>
    match pySplitMax1 '=' line with
    | none => .error (.malformedLine line, config)
    | some (name, value) =>
      match sdictGet settings (pyLower name) with
      | none => parseLines settings rest config
      | some (cname, hint, dflt) =>
        match ConfigBinder.cast hint value with
        | .ok v => parseLines settings rest (sdictInsert config cname (some v))
        | .error _ =>
          match dflt with
          | some d => .error (.parseError name value, sdictInsert config cname (some d))
          | none => .error (.parseError name value, config)

/-- `parse_config(raw, settings)`: split the raw text on newlines, seed
the mapping with every field's default, then run the line loop. -/
def parse_config (raw : String) (settings : ConfigSettings) :
    Except (Err × LoadedConfig) LoadedConfig :=
  parseLines settings (pySplit '\n' raw) (seedConfig settings)

/-- A populated record instance: its instance attribute dict. -/
structure Record where
  attrs : List (String × Option Value)

/-- `bind_to_config(c, loaded)`: instantiate the record and `setattr`
every resolved value onto it in mapping order. -/
def bind_to_config (loaded : LoadedConfig) : Record :=
  ⟨loaded.foldl (fun a p => sdictInsert a p.1 p.2) []⟩

/-- `getattr` on a bound record. -/
def Record.getattr (r : Record) (n : String) : Option (Option Value) :=
  sdictGet r.attrs n

/-- `bind_to(c, raw)`: descriptors, parse, bind.  A propagating parse
exception aborts the call before `bind_to_config` runs, so the caller
sees the error and never a record. -/
def bind_to (c : List FieldDecl) (raw : String) : Except Err Record :=
  match parse_config raw (load_type_hints_and_defaults c) with
  | .ok parsed => .ok (bind_to_config parsed)
  | .error (e, _) => .error e

/-- `bind_environ_to(c, environ)`: serialize the environment mapping to
one `KEY=VALUE` line per entry, in mapping iteration order, and bind
the joined text. -/
def bind_environ_to (c : List FieldDecl) (environ : List (String × String)) :
    Except Err Record :=
  bind_to c (pyJoin "\n" (environ.map (fun p => p.1 ++ "=" ++ p.2)))

/-- The lowercased key of a line, when the line has one (`none` for a
malformed line). -/
def lineKey (line : String) : Option String :=
  (pySplitMax1 '=' line).map (fun p => pyLower p.1)

/-- Whether the line loop passes a line without raising: a malformed
line raises, an unmatched key is skipped, a matched key must cast. -/
def lineOk (settings : ConfigSettings) (line : String) : Bool :=
  match pySplitMax1 '=' line with
  | none => false
  | some (name, value) =>
    match sdictGet settings (pyLower name) with
    | none => true
    | some (_, hint, _) => (ConfigBinder.cast hint value).isOk

/-- Modelled from the spec's words for the mapping caster (§4.1), used
to state claim C3 as a refinement: "split on `,` into pairs; split each
pair on `=` into key and value substrings; ... result is a mapping with
last-duplicate-key-wins semantics", with string key and value types so
the casts are identities.  `none` when some pair does not split into
exactly a key and a value. -/
def specSplitPair (pair : String) : Option (String × String) :=
  match pySplit '=' pair with
  | [k, v] => some (k, v)
  | _ => none

/-- Modelled from the spec's words (continued): every pair must split
into a key and value substring. -/
def specPairs : List String → Option (List (String × String))
  | [] => some []
  | p :: rest =>
    match specSplitPair p, specPairs rest with
    | some kv, some kvs => some (kv :: kvs)
    | _, _ => none

/-- Modelled from the spec's words (continued): the pairs, folded into
a mapping with last-duplicate-key-wins semantics. -/
def specMappingOfString (s : String) : Option (List (String × String)) :=
  (specPairs (pySplit ',' s)).map
    (fun kvs => kvs.foldl (fun m kv => sdictInsert m kv.1 kv.2) [])

/-! ### Association-list dictionary lemmas -/

theorem sdictGet_insert_self {α : Type} (m : List (String × α)) (k : String) (v : α) :
    sdictGet (sdictInsert m k v) k = some v := by
  induction m with
  | nil => simp [sdictInsert, sdictGet]
  | cons p rest ih =>
    by_cases h : p.1 = k
    · simp [sdictInsert, sdictGet, h]
    · simp [sdictInsert, sdictGet, h, ih]

theorem sdictGet_insert_ne {α : Type} (m : List (String × α)) {k k' : String} (v : α)
    (h : k ≠ k') : sdictGet (sdictInsert m k v) k' = sdictGet m k' := by
  induction m with
  | nil => simp [sdictInsert, sdictGet, h]
  | cons p rest ih =>
    by_cases hp : p.1 = k
    · simp [sdictInsert, sdictGet, hp, h]
    · by_cases hp' : p.1 = k'
      · simp [sdictInsert, sdictGet, hp, hp', Ne.symm h]
      · simp [sdictInsert, sdictGet, hp, hp', ih]

theorem keyMem_insert {α : Type} (m : List (String × α)) (k : String) (v : α) (k' : String) :
    keyMem (sdictInsert m k v) k' = (keyMem m k' || k' == k) := by
  by_cases h : k = k'
  · subst h; simp [keyMem, sdictGet_insert_self]
  · simp [keyMem, sdictGet_insert_ne m v h, Ne.symm h]

theorem sdictInsert_comm {α : Type} (m : List (String × α)) {k k' : String} (v v' : α)
    (hne : k ≠ k') (hk : keyMem m k = true) (hk' : keyMem m k' = true) :
    sdictInsert (sdictInsert m k v) k' v' = sdictInsert (sdictInsert m k' v') k v := by
  induction m with
  | nil => simp [keyMem, sdictGet] at hk
  | cons p rest ih =>
    by_cases h1 : p.1 = k
    · simp [sdictInsert, h1, hne, Ne.symm hne]
    · by_cases h2 : p.1 = k'
      · simp [sdictInsert, h1, h2, hne, Ne.symm hne]
      · have hk : keyMem rest k = true := by
          simpa [keyMem, sdictGet, h1] using hk
        have hk' : keyMem rest k' = true := by
          simpa [keyMem, sdictGet, h2] using hk'
        simp [sdictInsert, h1, h2, ih hk hk']

theorem sdictInsert_absent {α : Type} (m : List (String × α)) (k : String) (v : α)
    (h : keyMem m k = false) : sdictInsert m k v = m ++ [(k, v)] := by
  induction m with
  | nil => simp [sdictInsert]
  | cons p rest ih =>
    by_cases hp : p.1 = k
    · simp [keyMem, sdictGet, hp] at h
    · have h' : keyMem rest k = false := by simpa [keyMem, sdictGet, hp] using h
      simp [sdictInsert, hp, ih h']

theorem keyMem_false_forall {α : Type} (m : List (String × α)) (k : String)
    (h : keyMem m k = false) : ∀ p ∈ m, p.1 ≠ k := by
  induction m with
  | nil => intro p hp; simp at hp
  | cons p rest ih =>
    by_cases hp : p.1 = k
    · simp [keyMem, sdictGet, hp] at h
    · have h' : keyMem rest k = false := by simpa [keyMem, sdictGet, hp] using h
      intro q hq
      rcases List.mem_cons.mp hq with h'' | h''
      · exact h'' ▸ hp
      · exact ih h' q h''

theorem sdictInsert_keys {α : Type} (m : List (String × α)) (k : String) (v : α)
    (h : keyMem m k = true) :
    (sdictInsert m k v).map Prod.fst = m.map Prod.fst := by
  induction m with
  | nil => simp [keyMem, sdictGet] at h
  | cons p rest ih =>
    by_cases hp : p.1 = k
    · simp [sdictInsert, hp]
    · have h' : keyMem rest k = true := by simpa [keyMem, sdictGet, hp] using h
      simp [sdictInsert, hp, ih h']

/-- A string-keyed dict with pairwise-distinct keys (the invariant of
every dict the program builds). -/
def distinctKeys {α : Type} (m : List (String × α)) : Prop :=
  (m.map Prod.fst).Nodup

theorem distinctKeys_insert {α : Type} (m : List (String × α)) (k : String) (v : α)
    (h : distinctKeys m) : distinctKeys (sdictInsert m k v) := by
  cases hk : keyMem m k with
  | true => rw [distinctKeys, sdictInsert_keys m k v hk]; exact h
  | false =>
    rw [distinctKeys, sdictInsert_absent m k v hk]
    rw [List.map_append, List.nodup_append]
    refine ⟨h, by simp, ?_⟩
    intro a ha hb
    simp only [List.map_cons, List.map_nil, List.mem_singleton] at hb
    subst hb
    obtain ⟨p, hp, hpa⟩ := List.mem_map.mp ha
    exact absurd hpa (keyMem_false_forall m _ hk p hp)

theorem sdictGet_mem {α : Type} (m : List (String × α)) (k : String) (v : α)
    (h : sdictGet m k = some v) : (k, v) ∈ m := by
  induction m with
  | nil => simp [sdictGet] at h
  | cons p rest ih =>
    by_cases hp : p.1 = k
    · rw [sdictGet] at h
      simp only [hp, beq_self_eq_true, if_true, Option.some.injEq] at h
      exact (show p = (k, v) by rw [← hp, ← h]) ▸ List.mem_cons_self p rest
    · rw [sdictGet] at h
      simp only [beq_eq_false_iff_ne.mpr hp, if_false] at h
      exact List.mem_cons_of_mem _ (ih h)

theorem mem_sdictInsert {α : Type} (m : List (String × α)) (k : String) (v : α)
    (p : String × α) (hp : p ∈ sdictInsert m k v) : p ∈ m ∨ p = (k, v) := by
  induction m with
  | nil => right; simpa [sdictInsert] using hp
  | cons q rest ih =>
    by_cases hq : q.1 = k
    · rw [sdictInsert] at hp
      simp only [hq, beq_self_eq_true, if_true] at hp
      rcases List.mem_cons.mp hp with h | h
      · right; exact h
      · left; exact List.mem_cons_of_mem _ h
    · rw [sdictInsert] at hp
      simp only [beq_eq_false_iff_ne.mpr hq, if_false] at hp
      rcases List.mem_cons.mp hp with h | h
      · left; exact h ▸ List.mem_cons_self q rest
      · rcases ih h with h' | h'
        · left; exact List.mem_cons_of_mem _ h'
        · right; exact h'

theorem keyMem_append {α : Type} (a b : List (String × α)) (k : String) :
    keyMem (a ++ b) k = (keyMem a k || keyMem b k) := by
  induction a with
  | nil => simp [keyMem, sdictGet]
  | cons p rest ih =>
    by_cases hp : p.1 = k
    · simp [keyMem, sdictGet, hp]
    · simpa [keyMem, sdictGet, hp] using ih

/-! ### Folding `sdictInsert` (the shape of every dict the source builds) -/

theorem foldl_sdictInsert_distinct {α β : Type} (key : β → String) (val : β → α)
    (l : List β) : ∀ acc, distinctKeys acc →
    distinctKeys (l.foldl (fun m x => sdictInsert m (key x) (val x)) acc) := by
  induction l with
  | nil => intro acc h; exact h
  | cons x rest ih =>
    intro acc h
    rw [List.foldl_cons]
    exact ih _ (distinctKeys_insert acc (key x) (val x) h)

theorem keyMem_foldl_mono {α β : Type} (key : β → String) (val : β → α)
    (l : List β) (k : String) : ∀ acc, keyMem acc k = true →
    keyMem (l.foldl (fun m x => sdictInsert m (key x) (val x)) acc) k = true := by
  induction l with
  | nil => intro acc h; exact h
  | cons x rest ih =>
    intro acc h
    rw [List.foldl_cons]
    exact ih _ (by rw [keyMem_insert, h, Bool.true_or])

theorem foldl_sdictGet_ne {α β : Type} (key : β → String) (val : β → α)
    (l : List β) (k : String) (h : ∀ x ∈ l, key x ≠ k) : ∀ acc,
    sdictGet (l.foldl (fun m x => sdictInsert m (key x) (val x)) acc) k = sdictGet acc k := by
  induction l with
  | nil => intro acc; rfl
  | cons x rest ih =>
    intro acc
    rw [List.foldl_cons]
    rw [ih (fun y hy => h y (List.mem_cons_of_mem _ hy)) _]
    exact sdictGet_insert_ne acc (val x) (h x (List.mem_cons_self x rest))

theorem foldl_sdictInsert_append {α : Type} (m : List (String × α)) :
    ∀ acc, distinctKeys m → (∀ p ∈ m, keyMem acc p.1 = false) →
    m.foldl (fun a p => sdictInsert a p.1 p.2) acc = acc ++ m := by
  induction m with
  | nil => intro acc _ _; simp
  | cons p rest ih =>
    intro acc hd hdisj
    rw [List.foldl_cons, sdictInsert_absent acc p.1 p.2 (hdisj p (List.mem_cons_self p rest))]
    have hd' : distinctKeys rest := by
      rw [distinctKeys, List.map_cons, List.nodup_cons] at hd
      exact hd.2
    have hhead : ∀ q ∈ rest, q.1 ≠ p.1 := by
      rw [distinctKeys, List.map_cons, List.nodup_cons] at hd
      intro q hq hqe
      exact hd.1 (hqe ▸ List.mem_map.mpr ⟨q, hq, rfl⟩)
    have hdisj' : ∀ q ∈ rest, keyMem (acc ++ [(p.1, p.2)]) q.1 = false := by
      intro q hq
      rw [keyMem_append, hdisj q (List.mem_cons_of_mem _ hq), Bool.false_or]
      simp [keyMem, sdictGet, Ne.symm (hhead q hq)]
    rw [ih _ hd' hdisj']
    simp

/-- A record bound from a mapping with distinct keys carries exactly
that mapping as its attribute dict. -/
theorem bind_to_config_attrs (loaded : LoadedConfig) (h : distinctKeys loaded) :
    (bind_to_config loaded).attrs = loaded := by
  have := foldl_sdictInsert_append loaded [] h (fun p _ => rfl)
  simpa [bind_to_config] using this

/-! ### The line loop -/

theorem parseLines_append (settings : ConfigSettings) (a b : List String) :
    ∀ cfg, parseLines settings (a ++ b) cfg
      = match parseLines settings a cfg with
        | .ok cfg' => parseLines settings b cfg'
        | .error e => .error e := by
  induction a with
  | nil => intro cfg; simp [parseLines]
  | cons l rest ih =>
    intro cfg
    cases hs : pySplitMax1 '=' l with
    | none => simp [parseLines, hs]
    | some nv =>
      obtain ⟨name, value⟩ := nv
      cases hg : sdictGet settings (pyLower name) with
      | none => simp [parseLines, hs, hg, ih]
      | some e =>
        obtain ⟨cn, hint, dflt⟩ := e
        cases hc : ConfigBinder.cast hint value with
        | ok v => simp [parseLines, hs, hg, hc, ih]
        | error err => cases dflt <;> simp [parseLines, hs, hg, hc]

/-- The line loop succeeds exactly when every line passes: a malformed
line raises, an unmatched line is skipped, a matched line must cast. -/
theorem parseLines_isOk (settings : ConfigSettings) (ls : List String) :
    ∀ cfg, (parseLines settings ls cfg).isOk = ls.all (lineOk settings) := by
  induction ls with
  | nil => intro cfg; simp [parseLines, Except.toBool]
  | cons l rest ih =>
    intro cfg
    rw [List.all_cons]
    cases hs : pySplitMax1 '=' l with
    | none =>
      have hl : lineOk settings l = false := by simp [lineOk, hs]
      simp [parseLines, hs, hl, Except.toBool]
    | some nv =>
      obtain ⟨name, value⟩ := nv
      cases hg : sdictGet settings (pyLower name) with
      | none =>
        have hl : lineOk settings l = true := by simp [lineOk, hs, hg]
        simp [parseLines, hs, hg, hl, ih]
      | some e =>
        obtain ⟨cn, hint, dflt⟩ := e
        cases hc : ConfigBinder.cast hint value with
        | ok v =>
          have hl : lineOk settings l = true := by
            simp [lineOk, hs, hg, hc, Except.toBool]
          simp [parseLines, hs, hg, hc, hl, ih]
        | error err =>
          have hl : lineOk settings l = false := by
            simp [lineOk, hs, hg, hc, Except.toBool]
          cases dflt <;> simp [parseLines, hs, hg, hc, hl, Except.toBool]

/-! ### Field descriptor extraction and seeding -/

/-- Every descriptor's lookup key is the lowercased canonical name. -/
theorem load_wf (c : List FieldDecl) :
    ∀ p ∈ load_type_hints_and_defaults c, pyLower p.2.1 = p.1 := by
  suffices h : ∀ acc, (∀ p ∈ acc, pyLower p.2.1 = p.1) →
      ∀ p ∈ c.foldl
        (fun loaded f => sdictInsert loaded (pyLower f.name) (f.name, f.hint, f.default)) acc,
      pyLower p.2.1 = p.1 by
    exact h [] (by intro p hp; simp at hp)
  induction c with
  | nil => intro acc hacc; exact hacc
  | cons f rest ih =>
    intro acc hacc
    rw [List.foldl_cons]
    apply ih
    intro p hp
    rcases mem_sdictInsert _ _ _ p hp with h' | h'
    · exact hacc p h'
    · rw [h']

theorem load_distinct (c : List FieldDecl) :
    distinctKeys (load_type_hints_and_defaults c) := by
  exact foldl_sdictInsert_distinct (fun f => pyLower f.name)
    (fun f => (f.name, f.hint, f.default)) c [] (by simp [distinctKeys])

/-- Canonical names of descriptors from one record type are pairwise
distinct (the lookup key determines the canonical name). -/
theorem load_canonical_distinct (c : List FieldDecl) :
    (load_type_hints_and_defaults c).Pairwise (fun p q => p.2.1 ≠ q.2.1) := by
  have hwf := load_wf c
  have hdk : ((load_type_hints_and_defaults c).map Prod.fst).Pairwise (fun a b => a ≠ b) :=
    load_distinct c
  have hdk' := List.pairwise_map.mp hdk
  refine hdk'.imp_of_mem ?_
  intro p q hp hq hne he
  exact hne (by rw [← hwf p hp, ← hwf q hq, he])

/-- Seeding records every canonical name. -/
theorem seed_keyMem (settings : ConfigSettings) :
    ∀ p ∈ settings, keyMem (seedConfig settings) p.2.1 = true := by
  suffices h : ∀ acc p, p ∈ settings →
      keyMem (settings.foldl (fun config s => sdictInsert config s.2.1 s.2.2.2) acc) p.2.1
        = true by
    intro p hp; exact h [] p hp
  induction settings with
  | nil => intro acc p hp; simp at hp
  | cons q rest ih =>
    intro acc p hp
    rw [List.foldl_cons]
    rcases List.mem_cons.mp hp with h' | h'
    · subst h'
      have hbase : keyMem (sdictInsert acc p.2.1 p.2.2.2) p.2.1 = true := by
        rw [keyMem_insert]; simp
      exact keyMem_foldl_mono (fun s => s.2.1) (fun s => s.2.2.2) rest _ _ hbase
    · exact ih _ p h'

/-- Seeding stores every field's default under its canonical name. -/
theorem seed_lookup (settings : ConfigSettings) (k cn : String) (hint : Ty) (d : Option Value)
    (hcd : settings.Pairwise (fun p q => p.2.1 ≠ q.2.1))
    (hget : sdictGet settings k = some (cn, hint, d)) :
    sdictGet (seedConfig settings) cn = some d := by
  have hmem : (k, (cn, hint, d)) ∈ settings := sdictGet_mem settings k _ hget
  suffices h : ∀ S : ConfigSettings, S.Pairwise (fun p q => p.2.1 ≠ q.2.1) →
      (k, (cn, hint, d)) ∈ S → ∀ acc : LoadedConfig,
      sdictGet (S.foldl (fun config s => sdictInsert config s.2.1 s.2.2.2) acc) cn = some d by
    exact h settings hcd hmem []
  intro S
  induction S with
  | nil => intro _ hm; simp at hm
  | cons q rest ih =>
    intro hp hm acc
    rw [List.foldl_cons]
    rcases List.mem_cons.mp hm with h' | h'
    · have hq := h'.symm
      subst hq
      have hne : ∀ y ∈ rest, y.2.1 ≠ cn :=
        fun y hy => Ne.symm ((List.pairwise_cons.mp hp).1 y hy)
      exact (foldl_sdictGet_ne (fun s => s.2.1) (fun s => s.2.2.2) rest cn hne _).trans
        (sdictGet_insert_self acc cn d)
    · exact ih (List.pairwise_cons.mp hp).2 h' _

/-! ### Splitting and joining -/

theorem splitChar_ne_nil (c : Char) (cs : List Char) : splitChar c cs ≠ [] := by
  induction cs with
  | nil => simp [splitChar]
  | cons x xs ih =>
    rw [splitChar]
    cases h : splitChar c xs with
    | nil => exact absurd h ih
    | cons hd tl => by_cases hx : x = c <;> simp [hx]

theorem splitChar_no_sep (c : Char) (cs : List Char) (h : c ∉ cs) :
    splitChar c cs = [cs] := by
  induction cs with
  | nil => rfl
  | cons x xs ih =>
    have hx : x ≠ c := fun he => h (he ▸ List.mem_cons_self x xs)
    have hxs : c ∉ xs := fun hm => h (List.mem_cons_of_mem _ hm)
    rw [splitChar, ih hxs]
    simp [hx]

theorem splitChar_append_cons (c : Char) (x r : List Char) (h : c ∉ x) :
    splitChar c (x ++ c :: r) = x :: splitChar c r := by
  induction x with
  | nil =>
    cases hsp : splitChar c r with
    | nil => exact absurd hsp (splitChar_ne_nil c r)
    | cons hd tl => rw [List.nil_append, splitChar, hsp]; simp
  | cons a x ih =>
    have ha : a ≠ c := fun he => h (he ▸ List.mem_cons_self a x)
    have hx : c ∉ x := fun hm => h (List.mem_cons_of_mem _ hm)
    rw [List.cons_append, splitChar, ih hx]
    simp [ha]

theorem pySplit_pyJoin (elems : List String) (hne : elems ≠ [])
    (h : ∀ e ∈ elems, ',' ∉ e.toList) : pySplit ',' (pyJoin "," elems) = elems := by
  induction elems with
  | nil => exact absurd rfl hne
  | cons x rest ih =>
    cases rest with
    | nil =>
      rw [pyJoin, pySplit, splitChar_no_sep ',' x.toList (h x (List.mem_cons_self x []))]
      rfl
    | cons y rest' =>
      have hx : ',' ∉ x.toList := h x (List.mem_cons_self x (y :: rest'))
      have hcomma : (",".data : List Char) = [','] := rfl
      have hlist : (x ++ "," ++ pyJoin "," (y :: rest')).toList
          = x.toList ++ ',' :: (pyJoin "," (y :: rest')).toList := by
        show (x ++ "," ++ pyJoin "," (y :: rest')).data
          = x.data ++ ',' :: (pyJoin "," (y :: rest')).data
        rw [String.data_append, String.data_append, hcomma, List.append_assoc,
          List.singleton_append]
      rw [pyJoin, pySplit]
      rw [show (x ++ "," ++ pyJoin "," (y :: rest')).toList
            = x.toList ++ ',' :: (pyJoin "," (y :: rest')).toList from hlist]
      rw [splitChar_append_cons ',' _ _ hx]
      rw [List.map_cons]
      have ihr := ih (fun hh => List.noConfusion hh) (fun e he => h e (List.mem_cons_of_mem _ he))
      rw [pySplit] at ihr
      rw [ihr]
      rfl
      exact fun hh => List.noConfusion hh

/-! ### The casting engine on pure element casters -/

theorem mapM_loop_vstr (l : List String) :
    ∀ acc : List Value,
    List.mapM.loop (fun x => (Except.ok (Value.vstr x) : Except Err Value)) l acc
      = .ok (acc.reverse ++ l.map Value.vstr) := by
  induction l with
  | nil => intro acc; simp [List.mapM.loop]; rfl
  | cons x rest ih =>
    intro acc
    rw [List.mapM.loop]
    show List.mapM.loop _ rest (Value.vstr x :: acc) = _
    rw [ih]
    simp

theorem mapM_ok_vstr (l : List String) :
    (l.mapM (fun x => (Except.ok (Value.vstr x) : Except Err Value)))
      = .ok (l.map Value.vstr) := by
  show List.mapM.loop _ l [] = _
  rw [mapM_loop_vstr]
  rfl

theorem specSplitPair_eq (p k v : String) (h : specSplitPair p = some (k, v)) :
    pySplit '=' p = [k, v] := by
  rcases hsp : pySplit '=' p with _ | ⟨a, rest⟩
  · simp [specSplitPair, hsp] at h
  · rcases rest with _ | ⟨b, rest2⟩
    · simp [specSplitPair, hsp] at h
    · rcases rest2 with _ | ⟨e, tl⟩
      · simp only [specSplitPair, hsp, Option.some.injEq, Prod.mk.injEq] at h
        rw [h.1, h.2]
      · simp [specSplitPair, hsp] at h

theorem pyDictInsert_vstr (ps : List (String × String)) (k v : String) :
    pyDictInsert (ps.map (fun p => (Value.vstr p.1, Value.vstr p.2))) (.vstr k) (.vstr v)
      = (sdictInsert ps k v).map (fun p => (Value.vstr p.1, Value.vstr p.2)) := by
  induction ps with
  | nil => rfl
  | cons p rest ih =>
    by_cases hp : p.1 = k
    · simp [pyDictInsert, sdictInsert, Value.beq, hp]
    · simp [pyDictInsert, sdictInsert, Value.beq, hp, ih]

theorem except_bind_ok {α β : Type} (v : α) (f : α → Except Err β) :
    (Except.ok v >>= f) = f v := rfl

theorem except_bind_err {α β : Type} (e : Err) (f : α → Except Err β) :
    ((Except.error e : Except Err α) >>= f) = .error e := rfl

theorem except_pure {α : Type} (v : α) : (pure v : Except Err α) = .ok v := rfl

theorem except_map_ok {α β : Type} (g : α → β) (v : α) :
    (Except.ok v : Except Err α).map g = .ok (g v) := rfl

theorem except_map_err {α β : Type} (g : α → β) (e : Err) :
    (Except.error e : Except Err α).map g = .error e := rfl

/-- The `as_dict` loop on identity (string) key/value casters agrees
with the spec-modelled mapping construction. -/
theorem dict_foldlM_str (kc vc : String → Except Err Value)
    (hkc : ∀ s, kc s = .ok (.vstr s)) (hvc : ∀ s, vc s = .ok (.vstr s))
    (pairs : List String) :
    ∀ (acc kvs : List (String × String)),
    specPairs pairs = some kvs →
    (pairs.foldlM (dictStep kc vc)
      (acc.map (fun p => (Value.vstr p.1, Value.vstr p.2))))
      = .ok ((kvs.foldl (fun m kv => sdictInsert m kv.1 kv.2) acc).map
          (fun p => (Value.vstr p.1, Value.vstr p.2))) := by
  induction pairs with
  | nil =>
    intro acc kvs h
    simp only [specPairs, Option.some.injEq] at h
    subst h
    rfl
  | cons p rest ih =>
    intro acc kvs h
    rcases hp : specSplitPair p with _ | ⟨k, v⟩
    · simp only [specPairs, hp] at h
      exact Option.noConfusion h
    · rcases hr : specPairs rest with _ | kvs'
      · simp only [specPairs, hp, hr] at h
        exact Option.noConfusion h
      · simp only [specPairs, hp, hr, Option.some.injEq] at h
        subst h
        have hstep : dictStep kc vc
            (acc.map (fun q => (Value.vstr q.1, Value.vstr q.2))) p
            = .ok (pyDictInsert (acc.map (fun q => (Value.vstr q.1, Value.vstr q.2)))
                (Value.vstr k) (Value.vstr v)) := by
          have h1 : dictStep kc vc
              (acc.map (fun q => (Value.vstr q.1, Value.vstr q.2))) p
              = kc k >>= fun kv => vc v >>= fun vv =>
                  pure (pyDictInsert (acc.map (fun q => (Value.vstr q.1, Value.vstr q.2)))
                    kv vv) := by
            rw [dictStep, specSplitPair_eq p k v hp]
          rw [h1, hkc, hvc]
          rfl
        rw [List.foldlM, hstep, except_bind_ok, pyDictInsert_vstr, List.foldl_cons]
        exact ih (sdictInsert acc k v) kvs' hr

/-! ## The claims -/

/-- Claim C9: casting any raw string with a type descriptor whose root
kind has no registered caster (not scalar, sequence, set or mapping)
fails with the `typeUnsupported` error (`KeyError` on
`ConfigBinder.kinds`). -/
theorem c9_unsupported_root_fails (ty : Ty) (s : String)
    (h : ty.rootSupported = false) :
    ∃ n, ty = .other n ∧ ConfigBinder.cast ty s = .error (.typeUnsupported n) := by
  cases ty with
  | other n => exact ⟨n, rfl, rfl⟩
  | str => simp [Ty.rootSupported] at h
  | int => simp [Ty.rootSupported] at h
  | float => simp [Ty.rootSupported] at h
  | list sub => simp [Ty.rootSupported] at h
  | set sub => simp [Ty.rootSupported] at h
  | dict args => simp [Ty.rootSupported] at h

theorem c9_witness :
    Ty.rootSupported (.other "bytes") = false
    ∧ ∃ n, Ty.other "bytes" = .other n
        ∧ ConfigBinder.cast (.other "bytes") "x" = .error (.typeUnsupported n) :=
  ⟨rfl, c9_unsupported_root_fails (.other "bytes") "x" rfl⟩

/-- Claim C10: binding the empty raw text always fails — the empty
string splits into the single line `""`, which has no `=`, so the
unpacking raises (`malformedLine`) and no record is produced; hence
binding an empty environment mapping (serialized to the empty text)
also fails. -/
theorem c10_empty_input_fails (c : List FieldDecl) :
    pySplit '\n' "" = [""]
    ∧ pySplitMax1 '=' "" = none
    ∧ bind_to c "" = .error (.malformedLine "")
    ∧ bind_environ_to c [] = .error (.malformedLine "") :=
  ⟨rfl, rfl, rfl, rfl⟩

/-- Claim C1: when the line loop reaches a line whose key resolves to a
field with a declared default and the cast of its value fails, the
in-progress mapping is updated to hold the default under the canonical
field name, but the call still raises `parseError` with the offending
key and raw value; any parse error propagates through `bind_to`, so no
record reaches the caller. -/
theorem c1_default_fallback_still_raises
    (c : List FieldDecl) (line : String) (rest : List String) (cfg : LoadedConfig)
    (name value cname : String) (hint : Ty) (d : Value) (e : Err)
    (hsplit : pySplitMax1 '=' line = some (name, value))
    (hget : sdictGet (load_type_hints_and_defaults c) (pyLower name)
      = some (cname, hint, some d))
    (hcast : ConfigBinder.cast hint value = .error e) :
    parseLines (load_type_hints_and_defaults c) (line :: rest) cfg
        = .error (.parseError name value, sdictInsert cfg cname (some d))
    ∧ sdictGet (sdictInsert cfg cname (some d)) cname = some (some d)
    ∧ ∀ raw err m, parse_config raw (load_type_hints_and_defaults c) = .error (err, m) →
        bind_to c raw = .error err := by
  refine ⟨?_, sdictGet_insert_self cfg cname (some d), ?_⟩
  · simp [parseLines, hsplit, hget, hcast]
  · intro raw err m h
    simp [bind_to, h]

theorem c1_witness :
    parseLines (load_type_hints_and_defaults [⟨"Port", Ty.int, some (Value.vint 99)⟩])
        ["PORT=notanumber"] [("Port", some (Value.vint 99))]
      = .error (.parseError "PORT" "notanumber",
          sdictInsert [("Port", some (Value.vint 99))] "Port" (some (Value.vint 99)))
    ∧ sdictGet (sdictInsert [("Port", some (Value.vint 99))] "Port" (some (Value.vint 99)))
        "Port" = some (some (Value.vint 99))
    ∧ ∀ raw err m,
        parse_config raw (load_type_hints_and_defaults [⟨"Port", Ty.int, some (Value.vint 99)⟩])
          = .error (err, m) →
        bind_to [⟨"Port", Ty.int, some (Value.vint 99)⟩] raw = .error err :=
  c1_default_fallback_still_raises [⟨"Port", Ty.int, some (Value.vint 99)⟩]
    "PORT=notanumber" [] [("Port", some (Value.vint 99))] "PORT" "notanumber" "Port"
    Ty.int (Value.vint 99) (.conversionError "notanumber") rfl rfl rfl

/-- Claim C4: casting with the sequence-of-string descriptor splits on
`,` and returns the segments in order (duplicates kept), so a
comma-join of comma-free elements round-trips to exactly the original
ordered list. -/
theorem c4_sequence_roundtrip :
    (∀ s : String, ConfigBinder.cast (.list (some .str)) s
        = .ok (.vlist ((pySplit ',' s).map Value.vstr)))
    ∧ ∀ elems : List String, elems ≠ [] → (∀ e ∈ elems, ',' ∉ e.toList) →
        ConfigBinder.cast (.list (some .str)) (pyJoin "," elems)
          = .ok (.vlist (elems.map Value.vstr)) := by
  have h1 : ∀ s : String, ConfigBinder.cast (.list (some .str)) s
      = .ok (.vlist ((pySplit ',' s).map Value.vstr)) := by
    intro s
    show ((pySplit ',' s).mapM (ConfigBinder.cast Ty.str)).map Value.vlist = _
    rw [show ConfigBinder.cast Ty.str = fun x => (Except.ok (Value.vstr x) : Except Err Value)
        from rfl]
    rw [mapM_ok_vstr]
    rfl
  refine ⟨h1, ?_⟩
  intro elems hne hnc
  rw [h1, pySplit_pyJoin elems hne hnc]

theorem c4_witness :
    ConfigBinder.cast (.list (some .str)) "a,b,a"
      = .ok (.vlist [Value.vstr "a", Value.vstr "b", Value.vstr "a"]) :=
  c4_sequence_roundtrip.2 ["a", "b", "a"] (fun h => List.noConfusion h) (by decide)

/-- Claim C5: the set caster performs the same splitting and
per-segment casting as the sequence caster (same failures, too), then
collects the results into a deduplicated set; casting `"a,b,a"` to
set-of-string yields the two-element set containing exactly `"a"` and
`"b"`. -/
theorem c5_set_dedups :
    (∀ (sub : Option Ty) (s : String) (vs : List Value),
        ConfigBinder.cast (.list sub) s = .ok (.vlist vs) →
        ConfigBinder.cast (.set sub) s = .ok (.vset (pySetOfList vs)))
    ∧ (∀ (sub : Option Ty) (s : String) (e : Err),
        ConfigBinder.cast (.list sub) s = .error e →
        ConfigBinder.cast (.set sub) s = .error e)
    ∧ ConfigBinder.cast (.set (some .str)) "a,b,a"
        = .ok (.vset [Value.vstr "a", Value.vstr "b"])
    ∧ [Value.vstr "a", Value.vstr "b"].length = 2
    ∧ ∀ v, v ∈ [Value.vstr "a", Value.vstr "b"] ↔ (v = .vstr "a" ∨ v = .vstr "b") := by
  refine ⟨?_, ?_, rfl, rfl, ?_⟩
  · intro sub s vs h
    replace h : ((pySplit ',' s).mapM (ConfigBinder.castElem sub)).map Value.vlist
        = .ok (.vlist vs) := h
    show ((pySplit ',' s).mapM (ConfigBinder.castElem sub)).map
        (fun vs => Value.vset (pySetOfList vs)) = _
    cases hm : (pySplit ',' s).mapM (ConfigBinder.castElem sub) with
    | error e =>
      rw [hm, except_map_err] at h
      exact absurd h (by simp)
    | ok vs' =>
      rw [hm, except_map_ok] at h
      simp only [Except.ok.injEq, Value.vlist.injEq] at h
      subst h
      rfl
  · intro sub s e h
    replace h : ((pySplit ',' s).mapM (ConfigBinder.castElem sub)).map Value.vlist
        = .error e := h
    show ((pySplit ',' s).mapM (ConfigBinder.castElem sub)).map
        (fun vs => Value.vset (pySetOfList vs)) = _
    cases hm : (pySplit ',' s).mapM (ConfigBinder.castElem sub) with
    | error e' =>
      rw [hm, except_map_err] at h
      simp only [Except.error.injEq] at h
      subst h
      rfl
    | ok vs' =>
      rw [hm, except_map_ok] at h
      exact absurd h (by simp)
  · intro v
    simp

theorem c5_witness :
    ConfigBinder.cast (.set (some .str)) "a,b,a"
      = .ok (.vset (pySetOfList [Value.vstr "a", Value.vstr "b", Value.vstr "a"])) :=
  c5_set_dedups.1 (some .str) "a,b,a" [Value.vstr "a", Value.vstr "b", Value.vstr "a"] rfl

/-- Claim C3: the mapping caster splits the raw string on `,` into
pairs, splits each pair on `=` into key and value substrings, casts
both with the key and value descriptors (string when unspecified —
identity), and builds the dict with last-duplicate-key-wins semantics;
in particular `"k1=v1,k2=v2"` yields the mapping `k1 ↦ v1, k2 ↦ v2`,
and a repeated key keeps the last value. -/
theorem c3_mapping_cast :
    (∀ (args : Option (Ty × Ty)) (s : String) (kvs : List (String × String)),
        (args = none ∨ args = some (.str, .str)) →
        specMappingOfString s = some kvs →
        ConfigBinder.cast (.dict args) s
          = .ok (.vdict (kvs.map (fun p => (Value.vstr p.1, Value.vstr p.2)))))
    ∧ ConfigBinder.cast (.dict (some (.str, .str))) "k1=v1,k2=v2"
        = .ok (.vdict [(.vstr "k1", .vstr "v1"), (.vstr "k2", .vstr "v2")])
    ∧ ConfigBinder.cast (.dict (some (.str, .str))) "a=1,a=2"
        = .ok (.vdict [(.vstr "a", .vstr "2")]) := by
  refine ⟨?_, rfl, rfl⟩
  intro args s kvs hargs hspec
  rcases hps : specPairs (pySplit ',' s) with _ | kvs0
  · rw [specMappingOfString, hps] at hspec; exact absurd hspec (by simp)
  · rw [specMappingOfString, hps] at hspec
    have hspec' : some (kvs0.foldl (fun m kv => sdictInsert m kv.1 kv.2) []) = some kvs :=
      hspec
    rw [Option.some.injEq] at hspec'
    subst hspec'
    have hfold := dict_foldlM_str
      (ConfigBinder.castKeyTy args) (ConfigBinder.castValTy args)
      (by rcases hargs with h | h <;> subst h <;> intro s' <;> rfl)
      (by rcases hargs with h | h <;> subst h <;> intro s' <;> rfl)
      (pySplit ',' s) [] kvs0 hps
    show ((pySplit ',' s).foldlM
        (dictStep (ConfigBinder.castKeyTy args) (ConfigBinder.castValTy args)) []).map
          Value.vdict = _
    rw [show ([] : List (Value × Value))
        = (([] : List (String × String)).map (fun p => (Value.vstr p.1, Value.vstr p.2)))
        from rfl]
    rw [hfold]
    rfl

theorem c3_witness :
    ConfigBinder.cast (.dict none) "k1=v1,k2=v2"
      = .ok (.vdict ([("k1", "v1"), ("k2", "v2")].map
          (fun p => (Value.vstr p.1, Value.vstr p.2)))) :=
  c3_mapping_cast.1 none "k1=v1,k2=v2" [("k1", "v1"), ("k2", "v2")] (Or.inl rfl) rfl

/-- All-lines-unmatched texts leave the mapping untouched. -/
theorem parseLines_skip_all (settings : ConfigSettings) (ls : List String)
    (h : forall l, l ∈ ls → ∃ n v, pySplitMax1 '=' l = some (n, v)
      ∧ sdictGet settings (pyLower n) = none) :
    ∀ cfg, parseLines settings ls cfg = .ok cfg := by
  induction ls with
  | nil => intro cfg; rfl
  | cons l rest ih =>
    intro cfg
    obtain ⟨n, v, hs, hg⟩ := h l (List.mem_cons_self l rest)
    rw [parseLines, hs]
    simp only [hg]
    exact ih (fun l' hl' => h l' (List.mem_cons_of_mem _ hl')) cfg

theorem seed_distinct (settings : ConfigSettings) : distinctKeys (seedConfig settings) := by
  show distinctKeys (settings.foldl (fun config s => sdictInsert config s.2.1 s.2.2.2) [])
  exact foldl_sdictInsert_distinct (fun s => s.2.1) (fun s => s.2.2.2) settings []
    (by simp [distinctKeys])

/-- Descriptor lookup for records whose lowercased field names are
pairwise distinct: each field is found under its lowercased name. -/
theorem load_lookup (c : List FieldDecl) (f : FieldDecl)
    (hdist : (c.map (fun g => pyLower g.name)).Pairwise (fun a b => a ≠ b))
    (hf : f ∈ c) :
    sdictGet (load_type_hints_and_defaults c) (pyLower f.name)
      = some (f.name, f.hint, f.default) := by
  suffices h : ∀ (cs : List FieldDecl) (acc : ConfigSettings),
      (cs.map (fun g => pyLower g.name)).Pairwise (fun a b => a ≠ b) →
      f ∈ cs → (∀ g ∈ cs, keyMem acc (pyLower g.name) = false) →
      sdictGet (cs.foldl
        (fun loaded fd => sdictInsert loaded (pyLower fd.name) (fd.name, fd.hint, fd.default))
        acc) (pyLower f.name) = some (f.name, f.hint, f.default) by
    exact h c [] hdist hf (fun g _ => rfl)
  intro cs
  induction cs with
  | nil => intro acc _ hf'; simp at hf'
  | cons g rest ih =>
    intro acc hd hf' hacc
    rw [List.foldl_cons]
    rcases List.mem_cons.mp hf' with h' | h'
    · have hne : ∀ y ∈ rest, pyLower y.name ≠ pyLower g.name := by
        intro y hy he
        exact (List.pairwise_cons.mp hd).1 (pyLower y.name)
          (List.mem_map.mpr ⟨y, hy, rfl⟩) he.symm
      rw [h']
      exact (foldl_sdictGet_ne (fun fd => pyLower fd.name)
          (fun fd => (fd.name, fd.hint, fd.default)) rest (pyLower g.name) hne _).trans
        (sdictGet_insert_self acc (pyLower g.name) (g.name, g.hint, g.default))
    · apply ih _ (List.pairwise_cons.mp hd).2 h'
      intro y hy
      rw [keyMem_insert, hacc y (List.mem_cons_of_mem _ hy)]
      have hne : pyLower g.name ≠ pyLower y.name :=
        (List.pairwise_cons.mp hd).1 (pyLower y.name) (List.mem_map.mpr ⟨y, hy, rfl⟩)
      simp [Ne.symm hne]

/-- Claim C7: a line whose key matches no field descriptor
(case-insensitively) is skipped without error, and a text all of whose
well-formed lines have unmatched keys binds successfully to a record
holding every declared field's default. -/
theorem c7_unknown_keys_ignored :
    (∀ (settings : ConfigSettings) (cfg : LoadedConfig) (line : String) (rest : List String)
        (name value : String),
        pySplitMax1 '=' line = some (name, value) →
        sdictGet settings (pyLower name) = none →
        parseLines settings (line :: rest) cfg = parseLines settings rest cfg)
    ∧ (∀ (c : List FieldDecl) (raw : String),
        (∀ l ∈ pySplit '\n' raw, ∃ name value, pySplitMax1 '=' l = some (name, value)
            ∧ sdictGet (load_type_hints_and_defaults c) (pyLower name) = none) →
        bind_to c raw
            = .ok (bind_to_config (seedConfig (load_type_hints_and_defaults c)))
        ∧ ∀ k cname hint d,
            sdictGet (load_type_hints_and_defaults c) k = some (cname, hint, d) →
            (bind_to_config (seedConfig (load_type_hints_and_defaults c))).getattr cname
              = some d) := by
  constructor
  · intro settings cfg line rest name value hs hg
    rw [parseLines, hs]
    simp only [hg]
  · intro c raw hall
    have hp : parse_config raw (load_type_hints_and_defaults c)
        = .ok (seedConfig (load_type_hints_and_defaults c)) := by
      show parseLines (load_type_hints_and_defaults c) (pySplit '\n' raw)
          (seedConfig (load_type_hints_and_defaults c)) = _
      exact parseLines_skip_all _ _ hall _
    refine ⟨by simp [bind_to, hp], ?_⟩
    intro k cname hint d hget
    rw [Record.getattr, bind_to_config_attrs _ (seed_distinct _)]
    exact seed_lookup _ k cname hint d (load_canonical_distinct c) hget

theorem c7_witness :
    bind_to [⟨"Port", Ty.int, some (Value.vint 0)⟩] "UNKNOWNKEY=1"
        = .ok (bind_to_config
            (seedConfig (load_type_hints_and_defaults [⟨"Port", Ty.int, some (Value.vint 0)⟩])))
    ∧ ∀ k cname hint d,
        sdictGet (load_type_hints_and_defaults [⟨"Port", Ty.int, some (Value.vint 0)⟩]) k
          = some (cname, hint, d) →
        (bind_to_config
            (seedConfig (load_type_hints_and_defaults
              [⟨"Port", Ty.int, some (Value.vint 0)⟩]))).getattr cname = some d :=
  c7_unknown_keys_ignored.2 [⟨"Port", Ty.int, some (Value.vint 0)⟩] "UNKNOWNKEY=1"
    (by
      intro l hl
      rw [show pySplit '\n' "UNKNOWNKEY=1" = ["UNKNOWNKEY=1"] from rfl,
        List.mem_singleton] at hl
      subst hl
      exact ⟨"UNKNOWNKEY", "1", rfl, rfl⟩)

/-- Claim C8: key matching is case-insensitive.  For a record whose
lowercased field names are pairwise distinct: a key equal to a declared
field's name up to letter case looks up exactly that field's
descriptor; a matched line stores the cast value under the
original-casing canonical name; and binding a single such line yields a
record whose canonical-named attribute holds the cast value (e.g.
`"port=80"` binds to a field declared `Port`). -/
theorem c8_case_insensitive_binding :
    (∀ (c : List FieldDecl) (f : FieldDecl) (key : String),
        (c.map (fun g => pyLower g.name)).Pairwise (fun a b => a ≠ b) →
        f ∈ c →
        pyLower key = pyLower f.name →
        sdictGet (load_type_hints_and_defaults c) (pyLower key)
          = some (f.name, f.hint, f.default))
    ∧ (∀ (settings : ConfigSettings) (cfg : LoadedConfig) (line : String)
        (rest : List String) (name value cname : String) (hint : Ty) (dflt : Option Value)
        (v : Value),
        pySplitMax1 '=' line = some (name, value) →
        sdictGet settings (pyLower name) = some (cname, hint, dflt) →
        ConfigBinder.cast hint value = .ok v →
        parseLines settings (line :: rest) cfg
          = parseLines settings rest (sdictInsert cfg cname (some v)))
    ∧ (∀ (c : List FieldDecl) (f : FieldDecl) (raw line key value : String) (v : Value),
        (c.map (fun g => pyLower g.name)).Pairwise (fun a b => a ≠ b) →
        f ∈ c →
        pySplit '\n' raw = [line] →
        pySplitMax1 '=' line = some (key, value) →
        pyLower key = pyLower f.name →
        ConfigBinder.cast f.hint value = .ok v →
        bind_to c raw = .ok (bind_to_config
            (sdictInsert (seedConfig (load_type_hints_and_defaults c)) f.name (some v)))
        ∧ (bind_to_config (sdictInsert (seedConfig (load_type_hints_and_defaults c))
              f.name (some v))).getattr f.name = some (some v)) := by
  have part1 : ∀ (c : List FieldDecl) (f : FieldDecl) (key : String),
      (c.map (fun g => pyLower g.name)).Pairwise (fun a b => a ≠ b) →
      f ∈ c →
      pyLower key = pyLower f.name →
      sdictGet (load_type_hints_and_defaults c) (pyLower key)
        = some (f.name, f.hint, f.default) := by
    intro c f key hdist hf hkey
    rw [hkey]
    exact load_lookup c f hdist hf
  have part2 : ∀ (settings : ConfigSettings) (cfg : LoadedConfig) (line : String)
      (rest : List String) (name value cname : String) (hint : Ty) (dflt : Option Value)
      (v : Value),
      pySplitMax1 '=' line = some (name, value) →
      sdictGet settings (pyLower name) = some (cname, hint, dflt) →
      ConfigBinder.cast hint value = .ok v →
      parseLines settings (line :: rest) cfg
        = parseLines settings rest (sdictInsert cfg cname (some v)) := by
    intro settings cfg line rest name value cname hint dflt v hs hg hc
    rw [parseLines, hs]
    simp only [hg, hc]
  refine ⟨part1, part2, ?_⟩
  intro c f raw line key value v hdist hf hraw hs hkey hcast
  have hlk : sdictGet (load_type_hints_and_defaults c) (pyLower key)
      = some (f.name, f.hint, f.default) := part1 c f key hdist hf hkey
  have hpl : parseLines (load_type_hints_and_defaults c) [line]
      (seedConfig (load_type_hints_and_defaults c))
      = .ok (sdictInsert (seedConfig (load_type_hints_and_defaults c)) f.name (some v)) := by
    rw [part2 (load_type_hints_and_defaults c) _ line [] key value f.name f.hint f.default v
      hs hlk hcast]
    rfl
  have hp : parse_config raw (load_type_hints_and_defaults c)
      = .ok (sdictInsert (seedConfig (load_type_hints_and_defaults c)) f.name (some v)) := by
    show parseLines (load_type_hints_and_defaults c) (pySplit '\n' raw)
        (seedConfig (load_type_hints_and_defaults c)) = _
    rw [hraw]
    exact hpl
  refine ⟨by simp [bind_to, hp], ?_⟩
  rw [Record.getattr,
    bind_to_config_attrs _ (distinctKeys_insert _ _ _ (seed_distinct _))]
  exact sdictGet_insert_self _ _ _

theorem c8_witness :
    bind_to [⟨"Port", Ty.int, some (Value.vint 0)⟩] "port=80"
        = .ok (bind_to_config
            (sdictInsert
              (seedConfig (load_type_hints_and_defaults [⟨"Port", Ty.int, some (Value.vint 0)⟩]))
              "Port" (some (Value.vint 80))))
    ∧ (bind_to_config
          (sdictInsert
            (seedConfig (load_type_hints_and_defaults [⟨"Port", Ty.int, some (Value.vint 0)⟩]))
            "Port" (some (Value.vint 80)))).getattr "Port" = some (some (Value.vint 80)) :=
  c8_case_insensitive_binding.2.2 [⟨"Port", Ty.int, some (Value.vint 0)⟩]
    ⟨"Port", Ty.int, some (Value.vint 0)⟩ "port=80" "port=80" "port" "80" (Value.vint 80)
    (by simp) (List.mem_singleton.mpr rfl) rfl rfl rfl rfl

/-- Counterexample to claim C2 as stated: the text `"PORT=x\nFOO"`
contains the line `"FOO"` with no `=`, yet the bind call fails with the
`parseError` from the earlier unparseable `PORT` line, not with a
`malformedLine` error — processing aborts before the malformed line is
reached. -/
theorem c2_counterexample :
    (∃ l ∈ pySplit '\n' "PORT=x\nFOO", pySplitMax1 '=' l = none)
    ∧ bind_to [⟨"Port", Ty.int, none⟩] "PORT=x\nFOO" = .error (.parseError "PORT" "x")
    ∧ ∀ l, bind_to [⟨"Port", Ty.int, none⟩] "PORT=x\nFOO" ≠ .error (.malformedLine l) := by
  refine ⟨⟨"FOO", ?_, rfl⟩, rfl, ?_⟩
  · show "FOO" ∈ ["PORT=x", "FOO"]
    simp
  · intro l h
    rw [show bind_to [⟨"Port", Ty.int, none⟩] "PORT=x\nFOO"
        = .error (.parseError "PORT" "x") from rfl] at h
    simp at h

/-- Claim C2 (amended): a text containing a line with no `=` never
produces a record — the bind call always fails; the malformed line is
never skipped: whenever every line before it passes the loop, the call
fails with exactly the `malformedLine` error for that line (an earlier
line's failure may surface its own error first). -/
theorem c2_malformed_line_fatal :
    (∀ (c : List FieldDecl) (raw : String),
        (∃ l ∈ pySplit '\n' raw, pySplitMax1 '=' l = none) →
        ∀ r, bind_to c raw ≠ .ok r)
    ∧ (∀ (c : List FieldDecl) (raw : String) (pre : List String) (l : String)
        (post : List String),
        pySplit '\n' raw = pre ++ l :: post →
        pySplitMax1 '=' l = none →
        (∀ l' ∈ pre, lineOk (load_type_hints_and_defaults c) l' = true) →
        ∃ m, parse_config raw (load_type_hints_and_defaults c)
            = .error (.malformedLine l, m)
          ∧ bind_to c raw = .error (.malformedLine l)) := by
  constructor
  · intro c raw hml r hok
    obtain ⟨l, hl, hnone⟩ := hml
    cases hp : parse_config raw (load_type_hints_and_defaults c) with
    | error e => simp [bind_to, hp] at hok
    | ok cfg =>
      have hok' : (parseLines (load_type_hints_and_defaults c) (pySplit '\n' raw)
          (seedConfig (load_type_hints_and_defaults c))).isOk = true := by
        show (parse_config raw (load_type_hints_and_defaults c)).isOk = true
        rw [hp]
        rfl
      rw [parseLines_isOk] at hok'
      have hlok := List.all_eq_true.mp hok' l hl
      rw [lineOk, hnone] at hlok
      exact Bool.noConfusion hlok
  · intro c raw pre l post hsplit hml hpre
    have hok : (parseLines (load_type_hints_and_defaults c) pre
        (seedConfig (load_type_hints_and_defaults c))).isOk = true := by
      rw [parseLines_isOk]
      exact List.all_eq_true.mpr hpre
    obtain ⟨cfg', hcfg⟩ : ∃ cfg', parseLines (load_type_hints_and_defaults c) pre
        (seedConfig (load_type_hints_and_defaults c)) = .ok cfg' := by
      cases hq : parseLines (load_type_hints_and_defaults c) pre
          (seedConfig (load_type_hints_and_defaults c)) with
      | ok cfg' => exact ⟨cfg', rfl⟩
      | error e =>
        rw [hq] at hok
        exact absurd hok (by simp [Except.toBool])
    have hpc : parse_config raw (load_type_hints_and_defaults c)
        = .error (.malformedLine l, cfg') := by
      show parseLines (load_type_hints_and_defaults c) (pySplit '\n' raw)
          (seedConfig (load_type_hints_and_defaults c)) = _
      rw [hsplit, parseLines_append, hcfg]
      show parseLines (load_type_hints_and_defaults c) (l :: post) cfg' = _
      rw [parseLines, hml]
    exact ⟨cfg', hpc, by simp [bind_to, hpc]⟩

theorem c2_witness :
    (∀ r, bind_to ([] : List FieldDecl) "MALFORMED" ≠ .ok r)
    ∧ ∃ m, parse_config "MALFORMED" (load_type_hints_and_defaults [])
        = .error (.malformedLine "MALFORMED", m)
      ∧ bind_to ([] : List FieldDecl) "MALFORMED" = .error (.malformedLine "MALFORMED") :=
  ⟨c2_malformed_line_fatal.1 [] "MALFORMED"
      ⟨"MALFORMED", by show "MALFORMED" ∈ ["MALFORMED"]; simp, rfl⟩,
   c2_malformed_line_fatal.2 [] "MALFORMED" [] "MALFORMED" [] rfl rfl
      (fun l' hl' => absurd hl' (List.not_mem_nil l'))⟩

/-- Processing two adjacent lines with different (lowercased) keys
commutes, up to the returned mapping (`toOption` erases which of two
failing lines raises first).  Requires every canonical name to be
present in the mapping already — guaranteed by seeding — so that both
updates are in-place. -/
theorem two_line_comm (S : ConfigSettings) (hwf : ∀ p ∈ S, pyLower p.2.1 = p.1)
    (x y : String) (t : List String) (hxy : lineKey x ≠ lineKey y) :
    ∀ cfg : LoadedConfig, (∀ p ∈ S, keyMem cfg p.2.1 = true) →
    (parseLines S (x :: y :: t) cfg).toOption
      = (parseLines S (y :: x :: t) cfg).toOption := by
  intro cfg hinv
  cases hsx : pySplitMax1 '=' x with
  | none =>
    cases hsy : pySplitMax1 '=' y with
    | none => simp [parseLines, hsx, hsy, Except.toOption]
    | some nvy =>
      obtain ⟨ny, vy⟩ := nvy
      cases hgy : sdictGet S (pyLower ny) with
      | none => simp [parseLines, hsx, hsy, hgy, Except.toOption]
      | some ey =>
        obtain ⟨cy, hy, dy⟩ := ey
        cases hcy : ConfigBinder.cast hy vy with
        | ok vy' => simp [parseLines, hsx, hsy, hgy, hcy, Except.toOption]
        | error ey' =>
          cases dy <;> simp [parseLines, hsx, hsy, hgy, hcy, Except.toOption]
  | some nvx =>
    obtain ⟨nx, vx⟩ := nvx
    cases hgx : sdictGet S (pyLower nx) with
    | none =>
      cases hsy : pySplitMax1 '=' y with
      | none => simp [parseLines, hsx, hsy, hgx, Except.toOption]
      | some nvy =>
        obtain ⟨ny, vy⟩ := nvy
        cases hgy : sdictGet S (pyLower ny) with
        | none => simp [parseLines, hsx, hsy, hgx, hgy]
        | some ey =>
          obtain ⟨cy, hy, dy⟩ := ey
          cases hcy : ConfigBinder.cast hy vy with
          | ok vy' => simp [parseLines, hsx, hsy, hgx, hgy, hcy]
          | error ey' =>
            cases dy <;> simp [parseLines, hsx, hsy, hgx, hgy, hcy, Except.toOption]
    | some ex =>
      obtain ⟨cx, hx, dx⟩ := ex
      cases hcx : ConfigBinder.cast hx vx with
      | error ex' =>
        cases hsy : pySplitMax1 '=' y with
        | none =>
          cases dx <;> simp [parseLines, hsx, hsy, hgx, hcx, Except.toOption]
        | some nvy =>
          obtain ⟨ny, vy⟩ := nvy
          cases hgy : sdictGet S (pyLower ny) with
          | none => cases dx <;> simp [parseLines, hsx, hsy, hgx, hgy, hcx, Except.toOption]
          | some ey =>
            obtain ⟨cy, hy, dy⟩ := ey
            cases hcy : ConfigBinder.cast hy vy with
            | ok vy' =>
              cases dx <;> simp [parseLines, hsx, hsy, hgx, hgy, hcx, hcy, Except.toOption]
            | error ey' =>
              cases dx <;> cases dy <;>
                simp [parseLines, hsx, hsy, hgx, hgy, hcx, hcy, Except.toOption]
      | ok vx' =>
        cases hsy : pySplitMax1 '=' y with
        | none => simp [parseLines, hsx, hsy, hgx, hcx, Except.toOption]
        | some nvy =>
          obtain ⟨ny, vy⟩ := nvy
          cases hgy : sdictGet S (pyLower ny) with
          | none => simp [parseLines, hsx, hsy, hgx, hgy, hcx]
          | some ey =>
            obtain ⟨cy, hy, dy⟩ := ey
            cases hcy : ConfigBinder.cast hy vy with
            | error ey' =>
              cases dy <;> simp [parseLines, hsx, hsy, hgx, hgy, hcx, hcy, Except.toOption]
            | ok vy' =>
              have hmx : (pyLower nx, (cx, hx, dx)) ∈ S := sdictGet_mem S _ _ hgx
              have hmy : (pyLower ny, (cy, hy, dy)) ∈ S := sdictGet_mem S _ _ hgy
              have hclx : pyLower cx = pyLower nx := hwf _ hmx
              have hcly : pyLower cy = pyLower ny := hwf _ hmy
              have hkey : pyLower nx ≠ pyLower ny := by
                intro he
                apply hxy
                rw [lineKey, lineKey, hsx, hsy]
                simp [he]
              have hcne : cx ≠ cy := by
                intro he
                exact hkey (by rw [← hclx, ← hcly, he])
              have hpx : keyMem cfg cx = true := hinv _ hmx
              have hpy : keyMem cfg cy = true := hinv _ hmy
              simp only [parseLines, hsx, hsy, hgx, hgy, hcx, hcy]
              rw [sdictInsert_comm cfg (some vx') (some vy') hcne hpx hpy]

/-- The line loop is invariant under permutations of well-formed lines
with pairwise-distinct lowercased keys, up to the returned mapping. -/
theorem parseLines_perm (S : ConfigSettings) (hwf : ∀ p ∈ S, pyLower p.2.1 = p.1)
    {l₁ l₂ : List String} (hp : l₁.Perm l₂) :
    (∀ l ∈ l₁, (pySplitMax1 '=' l).isSome) →
    l₁.Pairwise (fun a b => lineKey a ≠ lineKey b) →
    ∀ cfg : LoadedConfig, (∀ p ∈ S, keyMem cfg p.2.1 = true) →
    (parseLines S l₁ cfg).toOption = (parseLines S l₂ cfg).toOption := by
  induction hp with
  | nil => intro _ _ cfg _; rfl
  | cons z hperm ih =>
    intro hkeys hdist cfg hinv
    cases hsz : pySplitMax1 '=' z with
    | none => simp [parseLines, hsz, Except.toOption]
    | some nv =>
      obtain ⟨n, v⟩ := nv
      cases hgz : sdictGet S (pyLower n) with
      | none =>
        simp only [parseLines, hsz, hgz]
        exact ih (fun l hl => hkeys l (List.mem_cons_of_mem _ hl))
          (List.pairwise_cons.mp hdist).2 cfg hinv
      | some e =>
        obtain ⟨cn, hnt, d⟩ := e
        cases hcz : ConfigBinder.cast hnt v with
        | ok v' =>
          simp only [parseLines, hsz, hgz, hcz]
          refine ih (fun l hl => hkeys l (List.mem_cons_of_mem _ hl))
            (List.pairwise_cons.mp hdist).2 _ ?_
          intro p hp'
          rw [keyMem_insert, hinv p hp', Bool.true_or]
        | error e' => cases d <;> simp [parseLines, hsz, hgz, hcz, Except.toOption]
  | swap a b t =>
    intro hkeys hdist cfg hinv
    exact two_line_comm S hwf b a t
      ((List.pairwise_cons.mp hdist).1 a (List.mem_cons_self a t)) cfg hinv
  | trans h₁ h₂ ih₁ ih₂ =>
    intro hkeys hdist cfg hinv
    rw [ih₁ hkeys hdist cfg hinv]
    exact ih₂ (fun l hl => hkeys l (h₁.symm.subset hl))
      ((h₁.pairwise_iff (fun hab => Ne.symm hab)).mp hdist) cfg hinv

/-- What the caller sees, up to the returned record. -/
theorem bind_to_toOption (c : List FieldDecl) (raw : String) :
    (bind_to c raw).toOption
      = (parse_config raw (load_type_hints_and_defaults c)).toOption.map bind_to_config := by
  cases h : parse_config raw (load_type_hints_and_defaults c) with
  | ok cfg => simp [bind_to, h, Except.toOption]
  | error e =>
    obtain ⟨e₁, m⟩ := e
    simp [bind_to, h, Except.toOption]

/-- Claim C6: binding two texts that are permutations of the same
well-formed lines with pairwise-distinct (lowercased) keys yields the
same result — the same record on success, and failure together on
failure (defaults are seeded before line processing, so order among
distinct keys is immaterial); order matters only for duplicate keys,
where the last line wins: appending a further line for an
already-processed field overwrites that field's value with the new
line's cast value. -/
theorem c6_order_independent :
    (∀ (c : List FieldDecl) (raw₁ raw₂ : String),
        (pySplit '\n' raw₁).Perm (pySplit '\n' raw₂) →
        (∀ l ∈ pySplit '\n' raw₁, (pySplitMax1 '=' l).isSome) →
        (pySplit '\n' raw₁).Pairwise (fun a b => lineKey a ≠ lineKey b) →
        (bind_to c raw₁).toOption = (bind_to c raw₂).toOption)
    ∧ (∀ (settings : ConfigSettings) (lines : List String) (line : String)
        (cfg cfg' : LoadedConfig) (name value cname : String) (hint : Ty)
        (dflt : Option Value) (v : Value),
        parseLines settings lines cfg = .ok cfg' →
        pySplitMax1 '=' line = some (name, value) →
        sdictGet settings (pyLower name) = some (cname, hint, dflt) →
        ConfigBinder.cast hint value = .ok v →
        parseLines settings (lines ++ [line]) cfg = .ok (sdictInsert cfg' cname (some v))
          ∧ sdictGet (sdictInsert cfg' cname (some v)) cname = some (some v)) := by
  constructor
  · intro c raw₁ raw₂ hperm hkeys hdist
    rw [bind_to_toOption, bind_to_toOption]
    have hresult := parseLines_perm (load_type_hints_and_defaults c) (load_wf c) hperm
      hkeys hdist (seedConfig (load_type_hints_and_defaults c))
      (seed_keyMem (load_type_hints_and_defaults c))
    exact congrArg (Option.map bind_to_config) hresult
  · intro settings lines line cfg cfg' name value cname hint dflt v hok hs hg hc
    refine ⟨?_, sdictGet_insert_self cfg' cname (some v)⟩
    rw [parseLines_append, hok]
    show parseLines settings [line] cfg' = _
    rw [parseLines, hs]
    simp only [hg, hc]
    rfl

theorem c6_witness :
    (bind_to [⟨"Port", Ty.int, some (Value.vint 0)⟩, ⟨"Name", Ty.str, some (Value.vstr "")⟩]
        "PORT=8080\nNAME=svc").toOption
      = (bind_to [⟨"Port", Ty.int, some (Value.vint 0)⟩, ⟨"Name", Ty.str, some (Value.vstr "")⟩]
          "NAME=svc\nPORT=8080").toOption
    ∧ (parseLines (load_type_hints_and_defaults [⟨"Port", Ty.int, some (Value.vint 0)⟩])
          (["PORT=1"] ++ ["PORT=2"])
          (seedConfig (load_type_hints_and_defaults [⟨"Port", Ty.int, some (Value.vint 0)⟩]))
        = .ok (sdictInsert [("Port", some (Value.vint 1))] "Port" (some (Value.vint 2)))
      ∧ sdictGet (sdictInsert [("Port", some (Value.vint 1))] "Port" (some (Value.vint 2)))
          "Port" = some (some (Value.vint 2))) :=
  ⟨c6_order_independent.1
      [⟨"Port", Ty.int, some (Value.vint 0)⟩, ⟨"Name", Ty.str, some (Value.vstr "")⟩]
      "PORT=8080\nNAME=svc" "NAME=svc\nPORT=8080" (by decide) (by decide) (by decide),
   c6_order_independent.2
      (load_type_hints_and_defaults [⟨"Port", Ty.int, some (Value.vint 0)⟩])
      ["PORT=1"] "PORT=2" (seedConfig (load_type_hints_and_defaults
        [⟨"Port", Ty.int, some (Value.vint 0)⟩]))
      [("Port", some (Value.vint 1))] "PORT" "2" "Port" Ty.int (some (Value.vint 0))
      (Value.vint 2) rfl rfl rfl rfl⟩

end Dotenv
